import Mathlib
set_option maxRecDepth 4000
set_option maxHeartbeats 1000000

/-!
Verification of the JaxStreams particle-spray stream-generation engine
(`JaxStreams_diffrax_refactored.py`) and the phase-space indexing utility
(`galax/coordinates/_src/psps/utils.py`).

Embedding conventions:
* Machine floats are idealised as exact rationals `ℚ`.  Rational division
  is total with `q / 0 = 0` (where IEEE floats would give inf/NaN); every
  concrete evaluation below is chosen so that no zero denominator is ever
  hit, and the one deliberately degenerate float value (the NaN cube root
  of a negative radicand) is handled explicitly in the C3 development.
* 3-vectors are triples `Vec3 := ℚ × ℚ × ℚ`; a 6-D phase-space state is a
  pair `Vec6 := Vec3 × Vec3` (position, velocity), matching the
  `w[:3]` / `w[3:]` slicing of the source.
* Numeric primitives that have no exact rational counterpart
  (`jnp.sqrt`, the fractional power `** (1/3)`, `jax.grad` automatic
  differentiation, and the `jax.random` generator) are abstracted into a
  bundle `JaxOps` of oracle functions.  Structural theorems are proved for
  every oracle bundle; concrete evaluations instantiate the oracles with
  functions that agree with the real primitives at every point at which the
  evaluation actually consults them (for example an exact square root on
  perfect squares, or the zero gradient for a constant potential).
* The Dopri5/PID adaptive solver (`diffrax.diffeqsolve`) is abstracted as a
  solution oracle `sol : Vec6 → ℚ → ℚ → Vec6` (`sol w0 t0 t` = the solver
  state at time `t` for the trajectory started at `w0` at time `t0`); the
  `SaveAt` bookkeeping of `diffeqsolve` is embedded explicitly.
-/

/-- 3-component vector of rationals (a `jnp` array of shape `(3,)`). -/
abbrev Vec3 : Type := ℚ × ℚ × ℚ

/-- 6-component phase-space vector: position and velocity halves. -/
abbrev Vec6 : Type := Vec3 × Vec3

/-- Componentwise vector addition. -/
def vadd (a b : Vec3) : Vec3 := (a.1 + b.1, a.2.1 + b.2.1, a.2.2 + b.2.2)

/-- Componentwise vector subtraction. -/
def vsub (a b : Vec3) : Vec3 := (a.1 - b.1, a.2.1 - b.2.1, a.2.2 - b.2.2)

/-- Scalar multiple of a vector. -/
def smul (c : ℚ) (a : Vec3) : Vec3 := (c * a.1, c * a.2.1, c * a.2.2)

/-- Componentwise negation (`-x` on a `jnp` array). -/
def vneg (a : Vec3) : Vec3 := (-a.1, -a.2.1, -a.2.2)

/-- Dot product (`jnp.sum(a*b)` for shape-(3,) arrays). -/
def dot (a b : Vec3) : ℚ := a.1 * b.1 + a.2.1 * b.2.1 + a.2.2 * b.2.2

/-- Cross product (`jnp.cross` for 3-vectors). -/
def cross (a b : Vec3) : Vec3 :=
  (a.2.1 * b.2.2 - a.2.2 * b.2.1,
   a.2.2 * b.1 - a.1 * b.2.2,
   a.1 * b.2.1 - a.2.1 * b.1)

/-- Oracle bundle for the JAX primitives that have no exact rational
counterpart.  `sqrt` stands for `jnp.sqrt`, `cbrt` for the fractional power
`x ** (1.0/3.0)`, `grad` for `jax.grad` (automatic differentiation of a
scalar field), `prngKey` for `jax.random.PRNGKey`, `randint` for the five
bounded integers drawn by `jax.random.randint(key, shape=(5,), 0, 1000)`,
and `normal` for the scalar standard-normal draw
`jax.random.normal(key, shape=(1,))`.  PRNG keys are abstracted as `ℤ`. -/
structure JaxOps where
  sqrt : ℚ → ℚ
  cbrt : ℚ → ℚ
  grad : (Vec3 → ℚ) → Vec3 → Vec3
  prngKey : ℤ → ℤ
  randint : ℤ → Fin 5 → ℤ
  normal : ℤ → ℚ

/-- `jnp.linalg.norm` of a 3-vector: square root of the sum of squares. -/
def norm3 (ops : JaxOps) (a : Vec3) : ℚ := ops.sqrt (dot a a)

/-- A `Potential` instance: the gravitational constant `_G` fixed by the
unit system at construction (`1` for dimensionless units) and the abstract
scalar field `potential(xyz, t)` supplied by the concrete subclass. -/
structure Potential where
  G : ℚ
  potential : Vec3 → ℚ → ℚ

instance : Inhabited Potential := ⟨⟨1, fun _ _ => 0⟩⟩

/-- `Potential.gradient`: `jax.grad(self.potential)` with respect to
position at fixed time. -/
def Potential.gradient (ops : JaxOps) (P : Potential) (xyz : Vec3) (t : ℚ) : Vec3 :=
  ops.grad (fun x => P.potential x t) xyz

/-- `Potential.acceleration`: `-self.gradient(xyz, t)`. -/
def Potential.acceleration (ops : JaxOps) (P : Potential) (xyz : Vec3) (t : ℚ) : Vec3 :=
  vneg (Potential.gradient ops P xyz t)

/-- `Potential.d2phidr2_mw`: directional derivative along the radial unit
vector of the radial component of the gradient. -/
def Potential.d2phidr2_mw (ops : JaxOps) (P : Potential) (x : Vec3) (t : ℚ) : ℚ :=
  let rad := norm3 ops x
  let r_hat := smul (1 / rad) x
  let dphi_dr_func := fun y => dot (Potential.gradient ops P y t) r_hat
  dot (ops.grad dphi_dr_func x) r_hat

/-- `Potential.omega`: magnitude of the orbital angular frequency,
`|x × v| / |x|²`. -/
def Potential.omega (ops : JaxOps) (x v : Vec3) : ℚ :=
  let rad := ops.sqrt (x.1 ^ 2 + x.2.1 ^ 2 + x.2.2 ^ 2)
  let omega_vec := smul (1 / rad ^ 2) (cross x v)
  norm3 ops omega_vec

/-- The radicand `G·Msat / (omega² − d2phidr2)` of the tidal-radius
formula. -/
def Potential.tidalr_radicand (ops : JaxOps) (P : Potential) (x v : Vec3) (Msat : ℚ) (t : ℚ) : ℚ :=
  P.G * Msat / (Potential.omega ops x v ^ 2 - Potential.d2phidr2_mw ops P x t)

/-- `Potential.tidalr_mw`: `(G·Msat / (omega² − d2phidr2)) ** (1/3)`,
computed unconditionally (no degeneracy check in the source). -/
def Potential.tidalr_mw (ops : JaxOps) (P : Potential) (x v : Vec3) (Msat : ℚ) (t : ℚ) : ℚ :=
  ops.cbrt (Potential.tidalr_radicand ops P x v Msat t)

/-- `Potential.lagrange_pts`: the two points `x ∓ r_tidal · r_hat`. -/
def Potential.lagrange_pts (ops : JaxOps) (P : Potential) (x v : Vec3) (Msat : ℚ) (t : ℚ) :
    Vec3 × Vec3 :=
  let r_tidal := Potential.tidalr_mw ops P x v Msat t
  let r_hat := smul (1 / norm3 ops x) x
  let L_close := vsub x (smul r_tidal r_hat)
  let L_far := vadd x (smul r_tidal r_hat)
  (L_close, L_far)

/-- `Potential.velocity_acceleration`: the ODE right-hand side
`[v, -gradient(x, t)]`. -/
def Potential.velocity_acceleration (ops : JaxOps) (P : Potential) (t : ℚ) (xv : Vec6) : Vec6 :=
  (xv.2, vneg (Potential.gradient ops P xv.1 t))

/-- `jax.lax.scan`: threads a carry through a list, collecting the
per-step outputs. -/
def scanl {C A B : Type} (f : C → A → C × B) : C → List A → C × List B
  | c, [] => (c, [])
  | c, a :: as =>
    let cb := f c a
    let rest := scanl f cb.1 as
    (rest.1, cb.2 :: rest.2)

/-- JAX array indexing `l[i]` for a traced nonnegative index: out-of-range
indices are clamped to the last element (the documented JAX gather-clip
semantics), in-range indices behave normally. -/
def jget {α : Type} [Inhabited α] (l : List α) (i : ℕ) : α :=
  l.getD (min i (l.length - 1)) default

/-- `jnp.min` of a 1-D array (unused-default `0` on the empty array, on
which the source errors). -/
def jnpMin : List ℚ → ℚ
  | [] => 0
  | a :: r => r.foldl min a

/-- `jnp.max` of a 1-D array. -/
def jnpMax : List ℚ → ℚ
  | [] => 0
  | a :: r => r.foldl max a

/-- The save schedule passed to `diffrax.diffeqsolve`: save the initial
state (`t0`), the final state (`t1`), and/or a list of times (`ts`). -/
structure SaveAt where
  t0 : Bool
  t1 : Bool
  ts : Option (List ℚ)

/-- Modelled from the spec and the documented `diffrax.diffeqsolve`
interface (the solver itself is not part of this repository): the returned
`solution.ys` contains, in order, the state at `t0` when `saveat.t0` is
set, the states at each requested time in `saveat.ts`, and the state at
`t1` when `saveat.t1` is set — the three groups are cumulative.  The
numeric integration itself is abstracted as the solution oracle
`sol w0 t0 t`. -/
def diffeqsolve (sol : Vec6 → ℚ → ℚ → Vec6) (t0 t1 : ℚ) (y0 : Vec6)
    (saveat : SaveAt) : List Vec6 :=
  (if saveat.t0 then [sol y0 t0 t0] else []) ++
    (match saveat.ts with
      | none => []
      | some ts => ts.map (sol y0 t0)) ++
    (if saveat.t1 then [sol y0 t0 t1] else [])

/-- `Potential.orbit_integrator_run`: calls `diffeqsolve` with
`SaveAt(t0=False, t1=True, ts=ts)` (Dopri5, PID controller with
`rtol=atol=1e-7`, `dt0=None` — all absorbed into the solution oracle
`sol`) and returns `solution.ys`. -/
def Potential.orbit_integrator_run (sol : Vec6 → ℚ → ℚ → Vec6) (w0 : Vec6)
    (t0 t1 : ℚ) (ts : Option (List ℚ)) : List Vec6 :=
  diffeqsolve sol t0 t1 w0 { t0 := false, t1 := true, ts := ts }

/-- `Potential.release_model(x, v, Msat, i, t, seed_num)`: five sub-keys
`PRNGKey(i * random_ints[k])` derived from the master key `PRNGKey(seed_num)`,
tidal-radius/Lagrange-point geometry, four Gaussian perturbation samples,
and the leading/trailing release states.  Returns
`(pos_lead, pos_trail, v_lead, v_trail)`.  `L_close`/`L_far`, `dphi_dr`,
`vt_sat` and `keye` are computed but unused, as in the source. -/
def Potential.release_model (ops : JaxOps) (P : Potential) (x v : Vec3)
    (Msat : ℚ) (i : ℕ) (t : ℚ) (seed_num : ℤ) : Vec3 × Vec3 × Vec3 × Vec3 :=
  let key_master := ops.prngKey seed_num
  let random_ints := fun j : Fin 5 => ops.randint key_master j
  let keya := ops.prngKey ((i : ℤ) * random_ints 0)
  let keyb := ops.prngKey ((i : ℤ) * random_ints 1)
  let keyc := ops.prngKey ((i : ℤ) * random_ints 2)
  let keyd := ops.prngKey ((i : ℤ) * random_ints 3)
  let keye := ops.prngKey ((i : ℤ) * random_ints 4)
  let Lpts := Potential.lagrange_pts ops P x v Msat t
  let omega_val := Potential.omega ops x v
  let r := norm3 ops x
  let r_hat := smul (1 / r) x
  let r_tidal := Potential.tidalr_mw ops P x v Msat t
  let rel_v := omega_val * r_tidal
  let dphi_dr := dot (Potential.gradient ops P x t) r_hat
  let v_circ := rel_v
  let L_vec := cross x v
  let z_hat := smul (1 / norm3 ops L_vec) L_vec
  let phi_vec := vsub v (smul (dot v r_hat) r_hat)
  let phi_hat := smul (1 / norm3 ops phi_vec) phi_vec
  let vt_sat := dot v phi_hat
  let kr_bar : ℚ := 2
  let kvphi_bar : ℚ := 3 / 10
  let kz_bar : ℚ := 0
  let kvz_bar : ℚ := 0
  let sigma_kr : ℚ := 1 / 2
  let sigma_kvphi : ℚ := 1 / 2
  let sigma_kz : ℚ := 1 / 2
  let sigma_kvz : ℚ := 1 / 2
  let kr_samp := kr_bar + ops.normal keya * sigma_kr
  let kvphi_samp := kr_samp * (kvphi_bar + ops.normal keyb * sigma_kvphi)
  let kz_samp := kz_bar + ops.normal keyc * sigma_kz
  let kvz_samp := kvz_bar + ops.normal keyd * sigma_kvz
  let pos_trail := vadd x (smul (kr_samp * r_tidal) r_hat)
  let pos_trail2 := vadd pos_trail (smul (kz_samp * (r_tidal / 1)) z_hat)
  let v_trail := vadd v (smul (0 + kvphi_samp * v_circ * 1) phi_hat)
  let v_trail2 := vadd v_trail (smul (kvz_samp * v_circ * 1) z_hat)
  let pos_lead := vadd x (smul (kr_samp * (-r_tidal)) r_hat)
  let pos_lead2 := vadd pos_lead (smul (kz_samp * (-r_tidal / 1)) z_hat)
  let v_lead := vadd v (smul (0 + kvphi_samp * v_circ * (-1)) phi_hat)
  let v_lead2 := vadd v_lead (smul (kvz_samp * v_circ * (-1)) z_hat)
  (pos_lead2, pos_trail2, v_lead2, v_trail2)

/-- One release record `(pos_close, pos_far, vel_close, vel_far)`. -/
abbrev StreamIC : Type := Vec3 × Vec3 × Vec3 × Vec3

/-- The inner `scan_fun` of `gen_stream_ics` (lambda-lifted, closing over
the captured `ws_jax`, `Msat` and `seed_num`): applies `release_model` to
the progenitor state `ws_jax[i]` at the scanned time `t` with release
index `i`, and threads `(i + 1, result)` as the next carry. -/
def gen_stream_ics_scan_fun (ops : JaxOps) (P : Potential) (ws_jax : List Vec6)
    (Msat : ℚ) (seed_num : ℤ) (carry : ℕ × StreamIC) (t : ℚ) :
    (ℕ × StreamIC) × StreamIC :=
  let i := carry.1
  let res := Potential.release_model ops P (jget ws_jax i).1 (jget ws_jax i).2 Msat i t seed_num
  ((i + 1, res), res)

/-- `Potential.gen_stream_ics`: integrates the progenitor once over the
full grid (`orbit_integrator_run(prog_w0, min(ts), max(ts), ts)`), then
scans `release_model` over `ts[1:]` with carry index `i` starting at `0`,
reading the progenitor state `ws_jax[i]`.  Returns the four stacked arrays
`(pos_close_arr, pos_far_arr, vel_close_arr, vel_far_arr)`. -/
def Potential.gen_stream_ics (ops : JaxOps) (sol : Vec6 → ℚ → ℚ → Vec6)
    (P : Potential) (ts : List ℚ) (prog_w0 : Vec6) (Msat : ℚ) (seed_num : ℤ) :
    List Vec3 × List Vec3 × List Vec3 × List Vec3 :=
  let ws_jax := Potential.orbit_integrator_run sol prog_w0 (jnpMin ts) (jnpMax ts) (some ts)
  let init_carry : ℕ × StreamIC :=
    (0, (0, 0, 0), (0, 0, 0), (0, 0, 0), (0, 0, 0))
  let all_states :=
    (scanl (gen_stream_ics_scan_fun ops P ws_jax Msat seed_num) init_carry (ts.drop 1)).2
  (all_states.map (fun r => r.1), all_states.map (fun r => r.2.1),
   all_states.map (fun r => r.2.2.1), all_states.map (fun r => r.2.2.2))

/-- The inner `scan_fun` of `gen_stream_scan` (lambda-lifted, closing over
`ts` and the four release arrays `ics`): stacks the carried leading and
trailing states into 6-vectors, integrates both from `ts[i]` to `ts[-1]`
in single-state save mode (taking `[0]`), and loads release `i + 1` into
the next carry. -/
def gen_stream_scan_scan_fun (sol : Vec6 → ℚ → ℚ → Vec6) (ts : List ℚ)
    (ics : List Vec3 × List Vec3 × List Vec3 × List Vec3)
    (carry : ℕ × StreamIC) (_particle_idx : ℕ) : (ℕ × StreamIC) × (Vec6 × Vec6) :=
  let i := carry.1
  let curr_particle_w0_close : Vec6 := (carry.2.1, carry.2.2.2.1)
  let curr_particle_w0_far : Vec6 := (carry.2.2.1, carry.2.2.2.2)
  let minval := jget ts i
  let maxval := jget ts (ts.length - 1)
  let integrate_different_ics := fun ics0 =>
    jget (Potential.orbit_integrator_run sol ics0 minval maxval none) 0
  let w_particle_close := integrate_different_ics curr_particle_w0_close
  let w_particle_far := integrate_different_ics curr_particle_w0_far
  ((i + 1, jget ics.1 (i + 1), jget ics.2.1 (i + 1),
    jget ics.2.2.1 (i + 1), jget ics.2.2.2 (i + 1)),
   (w_particle_close, w_particle_far))

/-- `Potential.gen_stream_scan`: sequential strategy.  Scans over the
particle ids; at carry index `i` it integrates the leading and trailing
states released at index `i` from `ts[i]` to `ts[-1]` (single-state save
mode, `[0]`), then loads the next release into the carry.  Returns
`(lead_arm, trail_arm)`. -/
def Potential.gen_stream_scan (ops : JaxOps) (sol : Vec6 → ℚ → ℚ → Vec6)
    (P : Potential) (ts : List ℚ) (prog_w0 : Vec6) (Msat : ℚ) (seed_num : ℤ) :
    List Vec6 × List Vec6 :=
  let ics := Potential.gen_stream_ics ops sol P ts prog_w0 Msat seed_num
  let init_carry : ℕ × StreamIC :=
    (0, jget ics.1 0, jget ics.2.1 0, jget ics.2.2.1 0, jget ics.2.2.2 0)
  let particle_ids := List.range ics.1.length
  let all_states := (scanl (gen_stream_scan_scan_fun sol ts ics) init_carry particle_ids).2
  (all_states.map (fun w => w.1), all_states.map (fun w => w.2))

/-- The inner `single_particle_integrate` of `gen_stream_vmapped`
(lambda-lifted, closing over `ts` and the four release arrays `ics`):
stacks release `particle_number` into leading/trailing 6-vectors and
integrates each independently from `t_release = ts[particle_number]` to
`t_final = ts[-1] + 0.01` in single-state save mode (taking `[0]`). -/
def single_particle_integrate (sol : Vec6 → ℚ → ℚ → Vec6) (ts : List ℚ)
    (ics : List Vec3 × List Vec3 × List Vec3 × List Vec3)
    (particle_number : ℕ) : Vec6 × Vec6 :=
  let curr_particle_w0_close : Vec6 :=
    (jget ics.1 particle_number, jget ics.2.2.1 particle_number)
  let curr_particle_w0_far : Vec6 :=
    (jget ics.2.1 particle_number, jget ics.2.2.2 particle_number)
  let t_release := jget ts particle_number
  let t_final := jget ts (ts.length - 1) + 1 / 100
  let w_particle_close :=
    jget (Potential.orbit_integrator_run sol curr_particle_w0_close t_release t_final none) 0
  let w_particle_far :=
    jget (Potential.orbit_integrator_run sol curr_particle_w0_far t_release t_final none) 0
  (w_particle_close, w_particle_far)

/-- `Potential.gen_stream_vmapped`: batched strategy.  Maps an independent
per-particle integration over all release indices; particle `j` is
integrated from `t_release = ts[j]` to `t_final = ts[-1] + 0.01`. -/
def Potential.gen_stream_vmapped (ops : JaxOps) (sol : Vec6 → ℚ → ℚ → Vec6)
    (P : Potential) (ts : List ℚ) (prog_w0 : Vec6) (Msat : ℚ) (seed_num : ℤ) :
    List Vec6 × List Vec6 :=
  let ics := Potential.gen_stream_ics ops sol P ts prog_w0 Msat seed_num
  let particle_ids := List.range ics.1.length
  let all_states := particle_ids.map (single_particle_integrate sol ts ics)
  (all_states.map (fun w => w.1), all_states.map (fun w => w.2))

/-- The `Isochrone` potential with dimensionless units (`units=None`, so
`_G = 1` at construction): `-G·m / (a + sqrt(r² + a²))` with
`r = jnp.linalg.norm(xyz)`. -/
def Isochrone (ops : JaxOps) (m a : ℚ) : Potential :=
  { G := 1,
    potential := fun xyz _t =>
      let r := norm3 ops xyz;
      -(1 * m) / (a + ops.sqrt (r ^ 2 + a ^ 2)) }

/-- `Potential_Combine.potential`: appends the value of each child to a list in
order and sums the resulting array. -/
def Potential_Combine_potential (potential_list : List Potential)
    (xyz : Vec3) (t : ℚ) : ℚ :=
  ((List.range potential_list.length).foldl
    (fun output i => output ++ [(jget potential_list i).potential xyz t]) []).sum

/-- The `Potential_Combine` composite (dimensionless units, `_G = 1`). -/
def Potential_Combine (potential_list : List Potential) : Potential :=
  { G := 1, potential := Potential_Combine_potential potential_list }

/-- `leapfrog_step(func, y0, t0, dt, a0)`: one kick-drift-kick update;
`func` is the potential-gradient function, and the new acceleration is
`-func(xf, tf)`. -/
def leapfrog_step (func : Vec3 → ℚ → Vec3) (y0 : Vec6) (t0 dt : ℚ) (a0 : Vec3) :
    ℚ × Vec6 × Vec3 :=
  let tf := t0 + dt
  let x0 := y0.1
  let v0 := y0.2
  let v1_2 := vadd v0 (smul (dt / 2) a0)
  let xf := vadd x0 (smul dt v1_2)
  let af := vneg (func xf tf)
  let vf := vadd v1_2 (smul (dt / 2) af)
  (tf, (xf, vf), af)

/-- The carry of the scan in `leapfrog_run`:
`(i, y0, t0, dt, a0)`. -/
abbrev LeapCarry : Type := ℕ × Vec6 × ℚ × ℚ × Vec3

/-- The body of the `jax.lax.scan` in `leapfrog_run`: performs a leapfrog step
with the carried step size, then computes the next step size: the raw
consecutive difference `ts[i+1] - ts[i]` is replaced by `ts[-1] - ts[-2]`
when its absolute value is positive and by `0.0` otherwise
(`jax.lax.cond` on `jnp.abs(dt_new) > 0`). -/
def leapfrog_scan_fun (func : Vec3 → ℚ → Vec3) (ts : List ℚ)
    (carry : LeapCarry) (_t : ℚ) : LeapCarry × Vec6 :=
  let i := carry.1
  let y0 := carry.2.1
  let t0 := carry.2.2.1
  let dt := carry.2.2.2.1
  let a0 := carry.2.2.2.2
  let step := leapfrog_step func y0 t0 dt a0
  let tf := step.1
  let yf := step.2.1
  let af := step.2.2
  let dt_new := jget ts (i + 1) - jget ts i
  let is_cond_met := |dt_new| > 0
  let dt_new2 :=
    if is_cond_met then jget ts (ts.length - 1) - jget ts (ts.length - 2) else 0
  ((i + 1, yf, tf, dt_new2, af), yf)

/-- `leapfrog_run(w0, ts, potential_gradient)`: initial acceleration
`-func(w0[:3], ts[0])`, initial step `ts[1] - ts[0]`, scan over `ts[1:]`,
returning `w0` prepended to the collected states. -/
def leapfrog_run (w0 : Vec6) (ts : List ℚ) (potential_gradient : Vec3 → ℚ → Vec3) :
    List Vec6 :=
  let a0 := vneg (potential_gradient w0.1 (jget ts 0))
  let dt := jget ts 1 - jget ts 0
  let init_carry : LeapCarry := (0, w0, jget ts 0, dt, a0)
  let ws := (scanl (leapfrog_scan_fun potential_gradient ts) init_carry (ts.drop 1)).2
  w0 :: ws

/-- The carry of `leapfrog_run` after `k` iterations of the scan. -/
def leapfrogCarry (w0 : Vec6) (ts : List ℚ) (potential_gradient : Vec3 → ℚ → Vec3)
    (k : ℕ) : LeapCarry :=
  let a0 := vneg (potential_gradient w0.1 (jget ts 0))
  let dt := jget ts 1 - jget ts 0
  let init_carry : LeapCarry := (0, w0, jget ts 0, dt, a0)
  ((ts.drop 1).take k).foldl
    (fun c t => (leapfrog_scan_fun potential_gradient ts c t).1) init_carry

/-- The step size `leapfrog_run` actually uses at (0-based) scan iteration
`k`: the `dt` component of the carry entering that iteration. -/
def leapfrogStepUsed (w0 : Vec6) (ts : List ℚ) (potential_gradient : Vec3 → ℚ → Vec3)
    (k : ℕ) : ℚ :=
  (leapfrogCarry w0 ts potential_gradient k).2.2.2.1

/-- An atomic (non-tuple, non-array) Python index: an integer, the
select-all `slice(None)`, or a bounded `slice(a, b)`. -/
inductive PAtom where
  | int : ℤ → PAtom
  | sliceAll : PAtom
  | slice : ℤ → ℤ → PAtom
deriving DecidableEq

/-- An index expression as dispatched on by `getitem_vec1time_index`:
a tuple of atoms, a shaped (array) index abstracted by its shape, or a
single atom (the fall-through case). -/
inductive PIndex where
  | atom : PAtom → PIndex
  | tuple : List PAtom → PIndex
  | shaped : List ℕ → PIndex
deriving DecidableEq

/-- The payload of the raised `IndexError`: the f-string
`f"Index {index} has too many dimensions for time array of shape
{t.shape}"` interpolates exactly the offending index and the shape of the
time array, which we model as the pair itself. -/
structure IndexErrorMsg where
  index : PIndex
  shape : List ℕ
deriving DecidableEq

instance {e a : Type} [DecidableEq e] [DecidableEq a] : DecidableEq (Except e a) := fun x y =>
  match x, y with
  | .ok u, .ok v =>
    if h : u = v then isTrue (by rw [h]) else isFalse (by intro hc; cases hc; exact h rfl)
  | .ok _, .error _ => isFalse (by intro hc; cases hc)
  | .error _, .ok _ => isFalse (by intro hc; cases hc)
  | .error u, .error v =>
    if h : u = v then isTrue (by rw [h]) else isFalse (by intro hc; cases hc; exact h rfl)

/-- `_getitem_vec1time_index_tuple(index, t)`: empty tuple and 1-D time
arrays return `slice(None)`; a tuple with `len(index) >= t.ndim` raises
`IndexError`; otherwise the tuple is returned unchanged.  The time array
is abstracted by its shape (`t.ndim = tshape.length`). -/
def getitem_vec1time_index_tuple (index : List PAtom) (tshape : List ℕ) :
    Except IndexErrorMsg PIndex :=
  if index.length = 0 then .ok (.atom .sliceAll)
  else if tshape.length = 1 then .ok (.atom .sliceAll)
  else if index.length ≥ tshape.length then .error ⟨.tuple index, tshape⟩
  else .ok (.tuple index)

/-- `_getitem_vec1time_index_shaped(index, t)`: against a 1-D time array
the index collapses to the one-element boolean mask `jnp.asarray([True])`
(shape `[1]`); an index with `len(index.shape) >= t.ndim` raises
`IndexError`; otherwise the index is returned unchanged. -/
def getitem_vec1time_index_shaped (ishape : List ℕ) (tshape : List ℕ) :
    Except IndexErrorMsg PIndex :=
  if tshape.length = 1 then .ok (.shaped [1])
  else if ishape.length ≥ tshape.length then .error ⟨.shaped ishape, tshape⟩
  else .ok (.shaped ishape)

/-- `getitem_vec1time_index(index, t)`: dispatches on tuples, then on
shaped (`HasShape`) indices, and returns any other index unchanged. -/
def getitem_vec1time_index (index : PIndex) (tshape : List ℕ) :
    Except IndexErrorMsg PIndex :=
  match index with
  | .tuple l => getitem_vec1time_index_tuple l tshape
  | .shaped s => getitem_vec1time_index_shaped s tshape
  | i => .ok i

/-- Newton iteration for the integer square root, written with explicit
fuel (structural recursion, so that it evaluates by plain unfolding). -/
def isqrtIter (n : ℕ) : ℕ → ℕ → ℕ
  | 0, guess => guess
  | fuel + 1, guess =>
    let next := (guess + n / guess) / 2
    if next < guess then isqrtIter n fuel next else guess

/-- Integer square root (the value of `Nat.sqrt`): 64 rounds of Newton
iteration from `n / 2 + 1` reach the fixed point for every `n < 2 ^ 64`. -/
def isqrt (n : ℕ) : ℕ := if n ≤ 1 then n else isqrtIter n 64 (n / 2 + 1)

/-- Exact square root for rationals whose numerator and denominator are
perfect squares; it agrees with the real `jnp.sqrt` at every such point,
and the concrete evaluations below only rely on its values there. -/
def sqrtQ (q : ℚ) : ℚ := (isqrt q.num.toNat : ℚ) / (isqrt q.den : ℚ)

/-- Central-difference operator with unit step: agrees exactly with
`jax.grad` on every polynomial field of total degree at most two (the
odd-order error terms vanish), which covers all scalar fields it is
applied to in the concrete evaluations below (constant and quadratic
potentials and their linear radial projections). -/
def cdiff (f : Vec3 → ℚ) (p : Vec3) : Vec3 :=
  ((f (vadd p (1, 0, 0)) - f (vsub p (1, 0, 0))) / 2,
   (f (vadd p (0, 1, 0)) - f (vsub p (0, 1, 0))) / 2,
   (f (vadd p (0, 0, 1)) - f (vsub p (0, 0, 1))) / 2)

/-- The exact flow of the force-free ODE `dx/dt = v`, `dv/dt = 0`.  For a
potential whose gradient vanishes identically this is what the Dopri5
adaptive solver computes exactly: with a nilpotent linear right-hand side
every Runge–Kutta step reproduces the affine solution regardless of the
accepted step sizes. -/
def freeDrift (w : Vec6) (t0 t1 : ℚ) : Vec6 :=
  (vadd w.1 (smul (t1 - t0) w.2), w.2)

/-- Concrete oracle bundle with degenerate-normal draws (`normal ≡ 0`, an
admissible sample value): exact square root, central-difference gradient,
cube root constantly `4` (the concrete evaluations below only consult the
cube root at `64`, and `64 ** (1/3) = 4`). -/
def opsZero : JaxOps :=
  { sqrt := sqrtQ
    cbrt := fun _ => 4
    grad := cdiff
    prngKey := fun n => n
    randint := fun k j => k + (j.val : ℤ)
    normal := fun _ => 0 }

/-- Concrete oracle bundle with key-sensitive PRNG draws: keys are the
identity, the five bounded draws are `key + j`, and the normal draw
returns the key itself, so distinct sub-keys yield distinct samples. -/
def opsKey : JaxOps :=
  { sqrt := sqrtQ, cbrt := fun _ => 4, grad := cdiff, prngKey := fun n => n,
    randint := fun k j => k + (j.val : ℤ), normal := fun k => (k : ℚ) } 

/-- `Isochrone(m=0, a=1)` in dimensionless units: its potential field is
identically `0`, hence its true gradient is identically `0` as well. -/
def PIso0 : Potential := Isochrone opsZero 0 1

/-- A minimal concrete `Potential` subclass with the quadratic
(harmonic) field `φ(xyz) = |xyz|²/2`; it realises the
"near-pericenter / ill-conditioned" regime of the spec in which
`omega² − d2phidr2 < 0` at an exactly representable input. -/
def Pharm : Potential := { G := 1, potential := fun xyz _t => dot xyz xyz / 2 }

/-- Oracle bundle for the degenerate-tidal-radius evaluation, with the
fractional power `(·) ** (1/3)` stubbed to the constant `0`: on a negative
radicand the real primitive returns NaN, so any returned value stands in
for the NaN payload. -/
def opsC0 : JaxOps :=
  { sqrt := sqrtQ, cbrt := fun _ => 0, grad := cdiff, prngKey := fun n => n,
    randint := fun k j => k + (j.val : ℤ), normal := fun _ => 0 }

/-- Same as `opsC0` except the fractional power is stubbed to the constant
`1`: the two bundles differ only in the value returned for the NaN cube
root of the negative radicand. -/
def opsC1 : JaxOps :=
  { sqrt := sqrtQ, cbrt := fun _ => 1, grad := cdiff, prngKey := fun n => n,
    randint := fun k j => k + (j.val : ℤ), normal := fun _ => 0 }

/-- The length-10 uniform time grid `[0, 1, ..., 9]`. -/
def ts10 : List ℚ := [0, 1, 2, 3, 4, 5, 6, 7, 8, 9]

/-- Progenitor initial condition `x = (8,0,0)`, `v = (0,2,0)`. -/
def w0C1 : Vec6 := ((8, 0, 0), (0, 2, 0))

/-- The collected outputs of a scan have one entry per input element. -/
theorem scanl_snd_length {C A B : Type} (f : C → A → C × B) :
    ∀ (l : List A) (c : C), ((scanl f c l).2).length = l.length := by
  intro l
  induction l with
  | nil => intro c; rfl
  | cons a as ih => intro c; simp [scanl, ih]

/-- Characterisation of a scan whose carry holds a running index together
with state satisfying an invariant `I`, and whose per-step output depends
only on the index and the scanned element: the `j`-th collected output is
`G` applied at index `c.1 + j`. -/
theorem scanl_get_of_inv {S A B : Type} (f : (ℕ × S) → A → (ℕ × S) × B)
    (I : ℕ → S → Prop) (G : ℕ → A → B)
    (hf : ∀ c a, I c.1 c.2 →
      (f c a).1.1 = c.1 + 1 ∧ I (c.1 + 1) (f c a).1.2 ∧ (f c a).2 = G c.1 a) :
    ∀ (l : List A) (c : ℕ × S), I c.1 c.2 → ∀ (j : ℕ),
      ((scanl f c l).2)[j]? = (l[j]?).map (G (c.1 + j)) := by
  intro l
  induction l with
  | nil => intro c _ j; simp [scanl]
  | cons a as ih =>
    intro c hc j
    obtain ⟨h1, h2, h3⟩ := hf c a hc
    have hinv : I (f c a).1.1 (f c a).1.2 := by rw [h1]; exact h2
    cases j with
    | zero => simp [scanl, h3]
    | succ j =>
      have hrec := ih (f c a).1 hinv j
      simp only [scanl, List.getElem?_cons_succ]
      rw [hrec, h1]
      have : c.1 + 1 + j = c.1 + (j + 1) := by omega
      rw [this]

/-- In-range JAX indexing agrees with plain list indexing. -/
theorem jget_eq_getElem {α : Type} [Inhabited α] (l : List α) (i : ℕ)
    (h : i < l.length) : jget l i = l[i] := by
  unfold jget
  have hmin : min i (l.length - 1) = i := by omega
  rw [hmin, List.getD_eq_getElem?_getD, List.getElem?_eq_getElem h]
  rfl

/-- Folding list-append of singletons is `map`. -/
theorem foldl_concat_map {α β : Type} (f : α → β) :
    ∀ (xs : List α) (acc : List β),
      xs.foldl (fun o a => o ++ [f a]) acc = acc ++ xs.map f := by
  intro xs
  induction xs with
  | nil => intro acc; simp
  | cons a as ih => intro acc; simp [ih]

/-- Reading every position of a list in order reproduces the list. -/
theorem map_jget_range {α : Type} [Inhabited α] (l : List α) :
    (List.range l.length).map (fun i => jget l i) = l := by
  apply List.ext_getElem?
  intro i
  rw [List.getElem?_map]
  by_cases h : i < l.length
  · rw [List.getElem?_range h, List.getElem?_eq_getElem h]
    simp [jget_eq_getElem l i h]
  · rw [List.getElem?_eq_none (by simpa using h),
      List.getElem?_eq_none (by omega : l.length ≤ i)]
    rfl

/-- C9: for every oracle bundle, potential, position and time,
`acceleration(p, t)` is the exact componentwise negation of
`gradient(p, t)`. -/
theorem C9_acceleration_is_neg_gradient (ops : JaxOps) (P : Potential)
    (xyz : Vec3) (t : ℚ) :
    (Potential.acceleration ops P xyz t).1 = -(Potential.gradient ops P xyz t).1 ∧
    (Potential.acceleration ops P xyz t).2.1 = -(Potential.gradient ops P xyz t).2.1 ∧
    (Potential.acceleration ops P xyz t).2.2 = -(Potential.gradient ops P xyz t).2.2 := by
  simp [Potential.acceleration, vneg]

/-- C8: the value of the composite potential is the sum of the
potential values of its children, for every ordered child list, position and time. -/
theorem C8_combine_potential_is_sum (potential_list : List Potential)
    (xyz : Vec3) (t : ℚ) :
    (Potential_Combine potential_list).potential xyz t =
      (potential_list.map (fun P => P.potential xyz t)).sum := by
  show Potential_Combine_potential potential_list xyz t = _
  unfold Potential_Combine_potential
  rw [foldl_concat_map]
  rw [List.nil_append]
  have hmm : (List.range potential_list.length).map
      (fun i => (jget potential_list i).potential xyz t) =
      ((List.range potential_list.length).map (fun i => jget potential_list i)).map
        (fun P => P.potential xyz t) := by
    rw [List.map_map]; rfl
  rw [hmm, map_jget_range]

/-- C5 (amended): with no save grid the integrator returns exactly the one
state at `t1`; with a save grid `ts` it returns the states at `ts`
followed by one extra state at `t1`, because the source passes
`SaveAt(t0=False, t1=True, ts=ts)` with `t1=True` in both modes. -/
theorem C5_amended (sol : Vec6 → ℚ → ℚ → Vec6) (w0 : Vec6) (t0 t1 : ℚ) :
    Potential.orbit_integrator_run sol w0 t0 t1 none = [sol w0 t0 t1] ∧
    ∀ ts : List ℚ, Potential.orbit_integrator_run sol w0 t0 t1 (some ts) =
      ts.map (sol w0 t0) ++ [sol w0 t0 t1] := by
  refine ⟨rfl, fun ts => rfl⟩

/-- C5 (counterexample): with `ts = [0, 1]` provided, the returned
sequence is not "exactly the states at those times" — the `t1=True` save
appends a third state. -/
theorem C5_counterexample :
    Potential.orbit_integrator_run freeDrift w0C1 0 1 (some [0, 1]) ≠
      ([0, 1] : List ℚ).map (freeDrift w0C1 0) := by
  with_unfolding_all decide

/-- C7: at release index `0` every sub-key collapses to
`PRNGKey(0 * random_ints[k]) = PRNGKey(0)`, so the output of
`release_model` is independent of the seed — for every oracle bundle,
potential, progenitor state, mass and time. -/
theorem C7_release_index_zero_seed_independent (ops : JaxOps) (P : Potential)
    (x v : Vec3) (Msat t : ℚ) (s1 s2 : ℤ) :
    Potential.release_model ops P x v Msat 0 t s1 =
      Potential.release_model ops P x v Msat 0 t s2 := by
  simp [Potential.release_model]

/-- C2 (counterexample): at release index `0`, two different seeds (`3`
and `5`) produce identical outputs even under a key-sensitive PRNG
oracle, contradicting "varying the seed … yields different outputs with
overwhelming probability" as stated for every release index. -/
theorem C2_counterexample :
    Potential.release_model opsKey PIso0 (8, 0, 0) (0, 2, 0) 4 0 0 3 =
      Potential.release_model opsKey PIso0 (8, 0, 0) (0, 2, 0) 4 0 0 5 := by
  with_unfolding_all decide

/-- C2 (amended): `release_model` is a pure function — identical arguments
give identical outputs — and for a nonzero release index distinct seeds do
produce distinct outputs (shown at index `1`, seeds `3` and `5`, under the
key-sensitive PRNG oracle); only at release index `0` is the output
seed-independent. -/
theorem C2_amended :
    (Potential.release_model opsKey PIso0 (8, 0, 0) (0, 2, 0) 4 1 0 3 =
      Potential.release_model opsKey PIso0 (8, 0, 0) (0, 2, 0) 4 1 0 3) ∧
    Potential.release_model opsKey PIso0 (8, 0, 0) (0, 2, 0) 4 1 0 3 ≠
      Potential.release_model opsKey PIso0 (8, 0, 0) (0, 2, 0) 4 1 0 5 := by
  exact ⟨rfl, by with_unfolding_all decide⟩

/-- C3: at `x = (8,0,0)`, `v = (0,1/8,0)`, `Msat = 1`, `t = 0` in the
harmonic potential, the tidal-radius radicand is negative (the real code
computes `(negative) ** (1/3) = NaN`), and `release_model` still consumes
the resulting tidal radius unconditionally: its plain-tuple output changes
with the value substituted for the undefined cube root, with no
distinguishable error condition anywhere in the signature. -/
theorem C3_silent_degenerate_tidal_radius :
    Potential.tidalr_radicand opsC0 Pharm (8, 0, 0) (0, 1/8, 0) 1 0 < 0 ∧
    Potential.release_model opsC0 Pharm (8, 0, 0) (0, 1/8, 0) 1 0 0 0 ≠
      Potential.release_model opsC1 Pharm (8, 0, 0) (0, 1/8, 0) 1 0 0 0 := by
  with_unfolding_all decide

/-- C10 (amended): the empty tuple yields select-all against every time
array; against a rank-1 time array every tuple yields select-all (never an
error); against a rank-≥2 time array a tuple with at least as many entries
as the rank (equality included) raises `IndexError` carrying the offending
index and the shape of the time array. -/
theorem C10_amended (l : List PAtom) (tshape : List ℕ) :
    (getitem_vec1time_index (.tuple []) tshape = .ok (.atom .sliceAll)) ∧
    (tshape.length = 1 →
      getitem_vec1time_index (.tuple l) tshape = .ok (.atom .sliceAll)) ∧
    (2 ≤ tshape.length → tshape.length ≤ l.length →
      getitem_vec1time_index (.tuple l) tshape = .error ⟨.tuple l, tshape⟩) := by
  refine ⟨rfl, fun h1 => ?_, fun h2 hle => ?_⟩
  · simp [getitem_vec1time_index, getitem_vec1time_index_tuple, h1]
  · have hne : tshape.length ≠ 1 := by omega
    have hl : l.length ≠ 0 := by omega
    simp [getitem_vec1time_index, getitem_vec1time_index_tuple, hne, hl, hle]

/-- C10 (witness): the three branches of `C10_amended` evaluated at
concrete indices and shapes. -/
theorem C10_witness :
    (getitem_vec1time_index (.tuple []) [3] = .ok (.atom .sliceAll)) ∧
    (getitem_vec1time_index (.tuple [.int 0, .int 1]) [3] = .ok (.atom .sliceAll)) ∧
    (getitem_vec1time_index (.tuple [.int 0, .int 1]) [2, 3] =
      .error ⟨.tuple [.int 0, .int 1], [2, 3]⟩) :=
  ⟨(C10_amended [] [3]).1,
   (C10_amended [.int 0, .int 1] [3]).2.1 (by decide),
   (C10_amended [.int 0, .int 1] [2, 3]).2.2 (by decide) (by decide)⟩

/-- C10 (counterexample): the tuple `(0, 1)` has more entries (2) than the
rank (1) of the time array of shape `[3]`, yet no `IndexError` is raised —
the rank-1 branch returns select-all first. -/
theorem C10_counterexample :
    ([PAtom.int 0, PAtom.int 1].length > ([3] : List ℕ).length) ∧
    getitem_vec1time_index (.tuple [.int 0, .int 1]) [3] = .ok (.atom .sliceAll) := by
  decide

/-- Relative-tolerance agreement: `|a − b| ≤ tol · |a|`. -/
def relClose (tol a b : ℚ) : Prop := |a - b| ≤ tol * |a|

instance (tol a b : ℚ) : Decidable (relClose tol a b) :=
  inferInstanceAs (Decidable (|a - b| ≤ tol * |a|))

/-- C1 (counterexample): on the length-10 grid `[0,…,9]` with the zero
(`m = 0`) Isochrone potential — for which the output of the adaptive solver is
exactly the free drift — the trailing-arm final state of release event `0`
differs between the two strategies by far more than `1e-6` relative: the
scan strategy stops at `ts[-1] = 9` (y-position `117/5 = 23.4`) while the
vmapped strategy integrates to `ts[-1] + 0.01` (y-position
`11713/500 = 23.426`). -/
theorem C1_counterexample :
    ¬ relClose (1 / 1000000)
      ((jget (Potential.gen_stream_scan opsZero freeDrift PIso0 ts10 w0C1 4 0).2 0).1.2.1)
      ((jget (Potential.gen_stream_vmapped opsZero freeDrift PIso0 ts10 w0C1 4 0).2 0).1.2.1) := by
  with_unfolding_all decide

/-- The identically-zero gradient field, used as the
`potential_gradient` argument of `leapfrog_run`. -/
def grad0 : Vec3 → ℚ → Vec3 := fun _ _ => (0, 0, 0)

/-- A concrete phase-space state for the leapfrog evaluations. -/
def w0L : Vec6 := ((0, 0, 0), (0, 0, 0))

/-- A non-uniform strictly increasing grid. -/
def ts4 : List ℚ := [0, 1, 3, 4]

/-- A grid with a repeated (zero-difference) interior point. -/
def tsZ : List ℚ := [0, 1, 1, 2]

/-- C4 (counterexample): on the grid `[0,1,3,4]` the step actually taken
at iteration 1 is `ts[-1] − ts[-2] = 1`, not the consecutive difference
`ts[2] − ts[1] = 2` (which is nonzero); and on the grid `[0,1,1,2]` the
zero consecutive difference `ts[2] − ts[1] = 0` makes the integrator carry
a `0` step (it stalls) instead of falling back to `ts[-1] − ts[-2] = 1`. -/
theorem C4_counterexample :
    (jget ts4 2 - jget ts4 1 ≠ 0 ∧
      leapfrogStepUsed w0L ts4 grad0 1 ≠ jget ts4 2 - jget ts4 1) ∧
    (jget tsZ 2 - jget tsZ 1 = 0 ∧
      jget tsZ (tsZ.length - 1) - jget tsZ (tsZ.length - 2) ≠ 0 ∧
      leapfrogStepUsed w0L tsZ grad0 2 = 0) := by
  with_unfolding_all decide

/-- Entry `j` of each of the four arrays returned by `gen_stream_ics` is
the corresponding projection of `release_model` applied to the progenitor
state `ws_jax[j]`, release index `j`, and the scanned time `ts[1:][j]`. -/
theorem gen_stream_ics_get (ops : JaxOps) (sol : Vec6 → ℚ → ℚ → Vec6) (P : Potential)
    (ts : List ℚ) (w0 : Vec6) (Msat : ℚ) (seed : ℤ) (j : ℕ) :
    (Potential.gen_stream_ics ops sol P ts w0 Msat seed).1[j]? =
      ((ts.drop 1)[j]?).map (fun t =>
        (Potential.release_model ops P
          (jget (Potential.orbit_integrator_run sol w0 (jnpMin ts) (jnpMax ts) (some ts)) j).1
          (jget (Potential.orbit_integrator_run sol w0 (jnpMin ts) (jnpMax ts) (some ts)) j).2
          Msat j t seed).1) ∧
    (Potential.gen_stream_ics ops sol P ts w0 Msat seed).2.1[j]? =
      ((ts.drop 1)[j]?).map (fun t =>
        (Potential.release_model ops P
          (jget (Potential.orbit_integrator_run sol w0 (jnpMin ts) (jnpMax ts) (some ts)) j).1
          (jget (Potential.orbit_integrator_run sol w0 (jnpMin ts) (jnpMax ts) (some ts)) j).2
          Msat j t seed).2.1) ∧
    (Potential.gen_stream_ics ops sol P ts w0 Msat seed).2.2.1[j]? =
      ((ts.drop 1)[j]?).map (fun t =>
        (Potential.release_model ops P
          (jget (Potential.orbit_integrator_run sol w0 (jnpMin ts) (jnpMax ts) (some ts)) j).1
          (jget (Potential.orbit_integrator_run sol w0 (jnpMin ts) (jnpMax ts) (some ts)) j).2
          Msat j t seed).2.2.1) ∧
    (Potential.gen_stream_ics ops sol P ts w0 Msat seed).2.2.2[j]? =
      ((ts.drop 1)[j]?).map (fun t =>
        (Potential.release_model ops P
          (jget (Potential.orbit_integrator_run sol w0 (jnpMin ts) (jnpMax ts) (some ts)) j).1
          (jget (Potential.orbit_integrator_run sol w0 (jnpMin ts) (jnpMax ts) (some ts)) j).2
          Msat j t seed).2.2.2) := by
  have key : ∀ jj : ℕ,
      ((scanl (gen_stream_ics_scan_fun ops P
          (Potential.orbit_integrator_run sol w0 (jnpMin ts) (jnpMax ts) (some ts)) Msat seed)
        (0, (0, 0, 0), (0, 0, 0), (0, 0, 0), (0, 0, 0)) (ts.drop 1)).2)[jj]? =
      ((ts.drop 1)[jj]?).map (fun t =>
        Potential.release_model ops P
          (jget (Potential.orbit_integrator_run sol w0 (jnpMin ts) (jnpMax ts) (some ts)) jj).1
          (jget (Potential.orbit_integrator_run sol w0 (jnpMin ts) (jnpMax ts) (some ts)) jj).2
          Msat jj t seed) := by
    intro jj
    have h := scanl_get_of_inv
      (gen_stream_ics_scan_fun ops P
        (Potential.orbit_integrator_run sol w0 (jnpMin ts) (jnpMax ts) (some ts)) Msat seed)
      (fun _ _ => True)
      (fun i t => Potential.release_model ops P
        (jget (Potential.orbit_integrator_run sol w0 (jnpMin ts) (jnpMax ts) (some ts)) i).1
        (jget (Potential.orbit_integrator_run sol w0 (jnpMin ts) (jnpMax ts) (some ts)) i).2
        Msat i t seed)
      (fun _ _ _ => ⟨rfl, trivial, rfl⟩)
      (ts.drop 1) (0, (0, 0, 0), (0, 0, 0), (0, 0, 0), (0, 0, 0)) trivial jj
    simpa using h
  refine ⟨?_, ?_, ?_, ?_⟩ <;>
    simp only [Potential.gen_stream_ics, List.getElem?_map, key, Option.map_map] <;> rfl

/-- C6: `gen_stream_ics` integrates the progenitor once over the full
grid and applies the release model once per snapshot `ts[1:]` (every
snapshot except the first), returning four aligned sequences of length
`len(ts) - 1`; entry `j` is the release at time `ts[j+1]` with release
index `j`, fed the integrated progenitor state `ws_jax[j]`. -/
theorem C6_gen_stream_ics_shape (ops : JaxOps) (sol : Vec6 → ℚ → ℚ → Vec6)
    (P : Potential) (ts : List ℚ) (w0 : Vec6) (Msat : ℚ) (seed : ℤ) :
    ((Potential.gen_stream_ics ops sol P ts w0 Msat seed).1.length = ts.length - 1 ∧
     (Potential.gen_stream_ics ops sol P ts w0 Msat seed).2.1.length = ts.length - 1 ∧
     (Potential.gen_stream_ics ops sol P ts w0 Msat seed).2.2.1.length = ts.length - 1 ∧
     (Potential.gen_stream_ics ops sol P ts w0 Msat seed).2.2.2.length = ts.length - 1) ∧
    ∀ j : ℕ, j < ts.length - 1 →
      ((Potential.gen_stream_ics ops sol P ts w0 Msat seed).1[j]? =
        some (Potential.release_model ops P
          (jget (Potential.orbit_integrator_run sol w0 (jnpMin ts) (jnpMax ts) (some ts)) j).1
          (jget (Potential.orbit_integrator_run sol w0 (jnpMin ts) (jnpMax ts) (some ts)) j).2
          Msat j (jget ts (j + 1)) seed).1 ∧
       (Potential.gen_stream_ics ops sol P ts w0 Msat seed).2.1[j]? =
        some (Potential.release_model ops P
          (jget (Potential.orbit_integrator_run sol w0 (jnpMin ts) (jnpMax ts) (some ts)) j).1
          (jget (Potential.orbit_integrator_run sol w0 (jnpMin ts) (jnpMax ts) (some ts)) j).2
          Msat j (jget ts (j + 1)) seed).2.1 ∧
       (Potential.gen_stream_ics ops sol P ts w0 Msat seed).2.2.1[j]? =
        some (Potential.release_model ops P
          (jget (Potential.orbit_integrator_run sol w0 (jnpMin ts) (jnpMax ts) (some ts)) j).1
          (jget (Potential.orbit_integrator_run sol w0 (jnpMin ts) (jnpMax ts) (some ts)) j).2
          Msat j (jget ts (j + 1)) seed).2.2.1 ∧
       (Potential.gen_stream_ics ops sol P ts w0 Msat seed).2.2.2[j]? =
        some (Potential.release_model ops P
          (jget (Potential.orbit_integrator_run sol w0 (jnpMin ts) (jnpMax ts) (some ts)) j).1
          (jget (Potential.orbit_integrator_run sol w0 (jnpMin ts) (jnpMax ts) (some ts)) j).2
          Msat j (jget ts (j + 1)) seed).2.2.2) := by
  constructor
  · refine ⟨?_, ?_, ?_, ?_⟩ <;>
      simp [Potential.gen_stream_ics, scanl_snd_length]
  · intro j hj
    have hdrop : (ts.drop 1)[j]? = some (jget ts (j + 1)) := by
      have hjlt : j + 1 < ts.length := by omega
      rw [List.getElem?_drop]
      have : 1 + j = j + 1 := by omega
      rw [this, List.getElem?_eq_getElem hjlt, jget_eq_getElem ts (j + 1) hjlt]
    obtain ⟨h1, h2, h3, h4⟩ := gen_stream_ics_get ops sol P ts w0 Msat seed j
    rw [hdrop] at h1 h2 h3 h4
    exact ⟨h1, h2, h3, h4⟩

/-- C6 (witness): the shape facts and the `j = 0` entry equations of
`C6_gen_stream_ics_shape` at the concrete instance (zero Isochrone
potential, free-drift solution oracle, grid `[0,…,9]`). -/
theorem C6_witness :
    ((Potential.gen_stream_ics opsZero freeDrift PIso0 ts10 w0C1 4 0).1.length = ts10.length - 1 ∧
     (Potential.gen_stream_ics opsZero freeDrift PIso0 ts10 w0C1 4 0).2.1.length = ts10.length - 1 ∧
     (Potential.gen_stream_ics opsZero freeDrift PIso0 ts10 w0C1 4 0).2.2.1.length = ts10.length - 1 ∧
     (Potential.gen_stream_ics opsZero freeDrift PIso0 ts10 w0C1 4 0).2.2.2.length = ts10.length - 1) ∧
    ((Potential.gen_stream_ics opsZero freeDrift PIso0 ts10 w0C1 4 0).1[0]? =
      some (Potential.release_model opsZero PIso0
        (jget (Potential.orbit_integrator_run freeDrift w0C1 (jnpMin ts10) (jnpMax ts10) (some ts10)) 0).1
        (jget (Potential.orbit_integrator_run freeDrift w0C1 (jnpMin ts10) (jnpMax ts10) (some ts10)) 0).2
        4 0 (jget ts10 1) 0).1 ∧
     (Potential.gen_stream_ics opsZero freeDrift PIso0 ts10 w0C1 4 0).2.1[0]? =
      some (Potential.release_model opsZero PIso0
        (jget (Potential.orbit_integrator_run freeDrift w0C1 (jnpMin ts10) (jnpMax ts10) (some ts10)) 0).1
        (jget (Potential.orbit_integrator_run freeDrift w0C1 (jnpMin ts10) (jnpMax ts10) (some ts10)) 0).2
        4 0 (jget ts10 1) 0).2.1 ∧
     (Potential.gen_stream_ics opsZero freeDrift PIso0 ts10 w0C1 4 0).2.2.1[0]? =
      some (Potential.release_model opsZero PIso0
        (jget (Potential.orbit_integrator_run freeDrift w0C1 (jnpMin ts10) (jnpMax ts10) (some ts10)) 0).1
        (jget (Potential.orbit_integrator_run freeDrift w0C1 (jnpMin ts10) (jnpMax ts10) (some ts10)) 0).2
        4 0 (jget ts10 1) 0).2.2.1 ∧
     (Potential.gen_stream_ics opsZero freeDrift PIso0 ts10 w0C1 4 0).2.2.2[0]? =
      some (Potential.release_model opsZero PIso0
        (jget (Potential.orbit_integrator_run freeDrift w0C1 (jnpMin ts10) (jnpMax ts10) (some ts10)) 0).1
        (jget (Potential.orbit_integrator_run freeDrift w0C1 (jnpMin ts10) (jnpMax ts10) (some ts10)) 0).2
        4 0 (jget ts10 1) 0).2.2.2) :=
  ⟨(C6_gen_stream_ics_shape opsZero freeDrift PIso0 ts10 w0C1 4 0).1,
   (C6_gen_stream_ics_shape opsZero freeDrift PIso0 ts10 w0C1 4 0).2 0 (by decide)⟩

/-- The four arrays returned by `gen_stream_ics` all have length
`len(ts) - 1`. -/
theorem gen_stream_ics_length (ops : JaxOps) (sol : Vec6 → ℚ → ℚ → Vec6)
    (P : Potential) (ts : List ℚ) (w0 : Vec6) (Msat : ℚ) (seed : ℤ) :
    (Potential.gen_stream_ics ops sol P ts w0 Msat seed).1.length = ts.length - 1 ∧
    (Potential.gen_stream_ics ops sol P ts w0 Msat seed).2.1.length = ts.length - 1 ∧
    (Potential.gen_stream_ics ops sol P ts w0 Msat seed).2.2.1.length = ts.length - 1 ∧
    (Potential.gen_stream_ics ops sol P ts w0 Msat seed).2.2.2.length = ts.length - 1 := by
  refine ⟨?_, ?_, ?_, ?_⟩ <;> simp [Potential.gen_stream_ics, scanl_snd_length]

/-- Entry `j` of the collected outputs of the scan in `gen_stream_scan`: the
leading and trailing states of release `j`, each integrated from `ts[j]`
to `ts[-1]`. -/
theorem gen_stream_scan_aux (sol : Vec6 → ℚ → ℚ → Vec6) (ts : List ℚ)
    (ics : List Vec3 × List Vec3 × List Vec3 × List Vec3) (j : ℕ)
    (hj : j < ics.1.length) :
    ((scanl (gen_stream_scan_scan_fun sol ts ics)
        (0, jget ics.1 0, jget ics.2.1 0, jget ics.2.2.1 0, jget ics.2.2.2 0)
        (List.range ics.1.length)).2)[j]? =
    some (jget (Potential.orbit_integrator_run sol (jget ics.1 j, jget ics.2.2.1 j)
            (jget ts j) (jget ts (ts.length - 1)) none) 0,
          jget (Potential.orbit_integrator_run sol (jget ics.2.1 j, jget ics.2.2.2 j)
            (jget ts j) (jget ts (ts.length - 1)) none) 0) := by
  have hf : ∀ (c : ℕ × StreamIC) (a : ℕ),
      (fun i s => s = (jget ics.1 i, jget ics.2.1 i, jget ics.2.2.1 i, jget ics.2.2.2 i))
        c.1 c.2 →
      (gen_stream_scan_scan_fun sol ts ics c a).1.1 = c.1 + 1 ∧
      (fun i s => s = (jget ics.1 i, jget ics.2.1 i, jget ics.2.2.1 i, jget ics.2.2.2 i))
        (c.1 + 1) (gen_stream_scan_scan_fun sol ts ics c a).1.2 ∧
      (gen_stream_scan_scan_fun sol ts ics c a).2 =
        (fun i (_a : ℕ) =>
          (jget (Potential.orbit_integrator_run sol (jget ics.1 i, jget ics.2.2.1 i)
              (jget ts i) (jget ts (ts.length - 1)) none) 0,
           jget (Potential.orbit_integrator_run sol (jget ics.2.1 i, jget ics.2.2.2 i)
              (jget ts i) (jget ts (ts.length - 1)) none) 0)) c.1 a := by
    intro c a hc
    refine ⟨rfl, rfl, ?_⟩
    simp only [gen_stream_scan_scan_fun, hc]
  rw [scanl_get_of_inv (gen_stream_scan_scan_fun sol ts ics)
    (fun i s => s = (jget ics.1 i, jget ics.2.1 i, jget ics.2.2.1 i, jget ics.2.2.2 i))
    (fun i (_a : ℕ) =>
      (jget (Potential.orbit_integrator_run sol (jget ics.1 i, jget ics.2.2.1 i)
          (jget ts i) (jget ts (ts.length - 1)) none) 0,
       jget (Potential.orbit_integrator_run sol (jget ics.2.1 i, jget ics.2.2.2 i)
          (jget ts i) (jget ts (ts.length - 1)) none) 0))
    hf (List.range ics.1.length)
    (0, jget ics.1 0, jget ics.2.1 0, jget ics.2.2.1 0, jget ics.2.2.2 0) rfl j]
  rw [List.getElem?_range hj]
  simp

/-- The leading-arm ("close") 6-vector initial condition of release `j`:
`hstack([pos_close_arr[j], vel_close_arr[j]])`. -/
def stream_w0_close (ops : JaxOps) (sol : Vec6 → ℚ → ℚ → Vec6) (P : Potential)
    (ts : List ℚ) (w0 : Vec6) (Msat : ℚ) (seed : ℤ) (j : ℕ) : Vec6 :=
  (jget (Potential.gen_stream_ics ops sol P ts w0 Msat seed).1 j,
   jget (Potential.gen_stream_ics ops sol P ts w0 Msat seed).2.2.1 j)

/-- The trailing-arm ("far") 6-vector initial condition of release `j`:
`hstack([pos_far_arr[j], vel_far_arr[j]])`. -/
def stream_w0_far (ops : JaxOps) (sol : Vec6 → ℚ → ℚ → Vec6) (P : Potential)
    (ts : List ℚ) (w0 : Vec6) (Msat : ℚ) (seed : ℤ) (j : ℕ) : Vec6 :=
  (jget (Potential.gen_stream_ics ops sol P ts w0 Msat seed).2.1 j,
   jget (Potential.gen_stream_ics ops sol P ts w0 Msat seed).2.2.2 j)

/-- C1 (amended): the two strategies consume the same release initial
conditions and integrate each particle from the same release time
`ts[j]`; they differ only in the final integration time — `gen_stream_scan`
integrates particle `j` to `ts[-1]` while `gen_stream_vmapped` integrates
it to `ts[-1] + 0.01` — so the final states agree only when the solution
oracle is insensitive to that extra interval, and differ in general. -/
theorem C1_amended (ops : JaxOps) (sol : Vec6 → ℚ → ℚ → Vec6) (P : Potential)
    (ts : List ℚ) (w0 : Vec6) (Msat : ℚ) (seed : ℤ) (j : ℕ)
    (hj : j < ts.length - 1) :
    (Potential.gen_stream_scan ops sol P ts w0 Msat seed).1[j]? =
      some (jget (Potential.orbit_integrator_run sol
        (stream_w0_close ops sol P ts w0 Msat seed j)
        (jget ts j) (jget ts (ts.length - 1)) none) 0) ∧
    (Potential.gen_stream_scan ops sol P ts w0 Msat seed).2[j]? =
      some (jget (Potential.orbit_integrator_run sol
        (stream_w0_far ops sol P ts w0 Msat seed j)
        (jget ts j) (jget ts (ts.length - 1)) none) 0) ∧
    (Potential.gen_stream_vmapped ops sol P ts w0 Msat seed).1[j]? =
      some (jget (Potential.orbit_integrator_run sol
        (stream_w0_close ops sol P ts w0 Msat seed j)
        (jget ts j) (jget ts (ts.length - 1) + 1 / 100) none) 0) ∧
    (Potential.gen_stream_vmapped ops sol P ts w0 Msat seed).2[j]? =
      some (jget (Potential.orbit_integrator_run sol
        (stream_w0_far ops sol P ts w0 Msat seed j)
        (jget ts j) (jget ts (ts.length - 1) + 1 / 100) none) 0) := by
  have hlen := (gen_stream_ics_length ops sol P ts w0 Msat seed).1
  have hjn : j < (Potential.gen_stream_ics ops sol P ts w0 Msat seed).1.length := by
    rw [hlen]; omega
  refine ⟨?_, ?_, ?_, ?_⟩
  · simp only [Potential.gen_stream_scan, List.getElem?_map]
    rw [gen_stream_scan_aux sol ts _ j hjn]
    simp [stream_w0_close]
  · simp only [Potential.gen_stream_scan, List.getElem?_map]
    rw [gen_stream_scan_aux sol ts _ j hjn]
    simp [stream_w0_far]
  · simp only [Potential.gen_stream_vmapped, List.getElem?_map]
    rw [List.getElem?_range hjn]
    simp [single_particle_integrate, stream_w0_close]
  · simp only [Potential.gen_stream_vmapped, List.getElem?_map]
    rw [List.getElem?_range hjn]
    simp [single_particle_integrate, stream_w0_far]

/-- C1 (witness): the characterisation of `C1_amended` at the concrete
instance (zero Isochrone potential, free-drift oracle, grid `[0,…,9]`,
release `j = 0`): the scan strategy integrates to `ts[-1] = 9`, the
vmapped strategy to `ts[-1] + 0.01`. -/
theorem C1_amended_witness :
    (Potential.gen_stream_scan opsZero freeDrift PIso0 ts10 w0C1 4 0).1[0]? =
      some (jget (Potential.orbit_integrator_run freeDrift
        (stream_w0_close opsZero freeDrift PIso0 ts10 w0C1 4 0 0)
        (jget ts10 0) (jget ts10 (ts10.length - 1)) none) 0) ∧
    (Potential.gen_stream_scan opsZero freeDrift PIso0 ts10 w0C1 4 0).2[0]? =
      some (jget (Potential.orbit_integrator_run freeDrift
        (stream_w0_far opsZero freeDrift PIso0 ts10 w0C1 4 0 0)
        (jget ts10 0) (jget ts10 (ts10.length - 1)) none) 0) ∧
    (Potential.gen_stream_vmapped opsZero freeDrift PIso0 ts10 w0C1 4 0).1[0]? =
      some (jget (Potential.orbit_integrator_run freeDrift
        (stream_w0_close opsZero freeDrift PIso0 ts10 w0C1 4 0 0)
        (jget ts10 0) (jget ts10 (ts10.length - 1) + 1 / 100) none) 0) ∧
    (Potential.gen_stream_vmapped opsZero freeDrift PIso0 ts10 w0C1 4 0).2[0]? =
      some (jget (Potential.orbit_integrator_run freeDrift
        (stream_w0_far opsZero freeDrift PIso0 ts10 w0C1 4 0 0)
        (jget ts10 0) (jget ts10 (ts10.length - 1) + 1 / 100) none) 0) :=
  C1_amended opsZero freeDrift PIso0 ts10 w0C1 4 0 0 (by decide)

/-- Unfolding one step of the leapfrog scan carry. -/
theorem leapfrogCarry_succ (w0 : Vec6) (ts : List ℚ) (f : Vec3 → ℚ → Vec3)
    (k : ℕ) (hk : k < ts.length - 1) :
    leapfrogCarry w0 ts f (k + 1) =
      (leapfrog_scan_fun f ts (leapfrogCarry w0 ts f k) (jget (ts.drop 1) k)).1 := by
  have hklt : k < (ts.drop 1).length := by
    rw [List.length_drop]; omega
  simp only [leapfrogCarry]
  rw [List.take_succ, List.getElem?_eq_getElem hklt, jget_eq_getElem _ _ hklt]
  simp [List.foldl_append]

/-- After `k` iterations of the leapfrog scan the carried index is `k`. -/
theorem leapfrogCarry_fst (w0 : Vec6) (ts : List ℚ) (f : Vec3 → ℚ → Vec3) :
    ∀ k : ℕ, k ≤ ts.length - 1 → (leapfrogCarry w0 ts f k).1 = k := by
  intro k
  induction k with
  | zero => intro _; rfl
  | succ k ih =>
    intro hk
    rw [leapfrogCarry_succ w0 ts f k (by omega)]
    simp only [leapfrog_scan_fun]
    rw [ih (by omega)]

/-- C4 (amended): the first leapfrog step is `ts[1] − ts[0]`; every later
step is `ts[-1] − ts[-2]` (the last grid interval) whenever the
corresponding consecutive difference `ts[k+1] − ts[k]` is nonzero, and `0`
(the integrator stalls) whenever that difference is zero.  Only on a
uniform grid does the step equal the consecutive difference. -/
theorem C4_amended (potential_gradient : Vec3 → ℚ → Vec3) (w0 : Vec6)
    (ts : List ℚ) (k : ℕ) (hk : k < ts.length - 1) :
    leapfrogStepUsed w0 ts potential_gradient 0 = jget ts 1 - jget ts 0 ∧
    leapfrogStepUsed w0 ts potential_gradient (k + 1) =
      (if jget ts (k + 1) - jget ts k = 0 then 0
       else jget ts (ts.length - 1) - jget ts (ts.length - 2)) := by
  constructor
  · rfl
  · unfold leapfrogStepUsed
    rw [leapfrogCarry_succ w0 ts potential_gradient k hk]
    have hidx : (leapfrogCarry w0 ts potential_gradient k).1 = k :=
      leapfrogCarry_fst w0 ts potential_gradient k (by omega)
    simp only [leapfrog_scan_fun, hidx]
    by_cases h0 : jget ts (k + 1) - jget ts k = 0
    · simp [h0]
    · simp [h0, abs_pos.mpr h0]

/-- C4 (witness): the amended step-size law evaluated on the non-uniform
grid `[0, 1, 3, 4]` at iteration `k + 1 = 2`. -/
theorem C4_amended_witness :
    leapfrogStepUsed w0L ts4 grad0 0 = jget ts4 1 - jget ts4 0 ∧
    leapfrogStepUsed w0L ts4 grad0 2 =
      (if jget ts4 2 - jget ts4 1 = 0 then 0
       else jget ts4 (ts4.length - 1) - jget ts4 (ts4.length - 2)) :=
  C4_amended grad0 w0L ts4 1 (by decide)
